import Mathlib

/-!
Verification development for `src/python/pants/backend/project_info/peek.py`.

The module is shallowly embedded: Python values that can appear as target
field values (and travel through `_PeekJsonEncoder`) are modelled by the
inductive type `PyVal`; dicts are association lists with Python insertion
semantics (updating an existing key keeps its position, a new key is
appended); `json.dumps` with `_PeekJsonEncoder` is the function `dumps`.
-/

set_option maxHeartbeats 1000000

namespace Peek

/--
Universe of Python values relevant to `peek.py`.
Constructors mirror the dynamic type tests made by `_PeekJsonEncoder.default`
and `_normalize_value`:
`str`, `int`, `bool`, `pyNone` are scalars (`int`/`bool` are natively JSON
serializable); `list`/`tup`/`pySet` are the mutable list, the tuple and the
set (all hit the Sequence-or-set branch of the encoder; `list` and `tup` are
also natively serializable by `json.dumps`, a set is not); `dict` is a plain
`dict` (natively serializable) and `frozendict` is `pants.util.frozendict.
FrozenDict` (a `Mapping` but not a `dict` subclass, hence routed through
`default`); `field` is an `engine.target.Field` wrapper holding `.value`;
`dataclass` a frozen dataclass with named attributes; `dictable` an object
exposing `asdict()`; `pyobj` an arbitrary other object whose `str()` text is
its payload.
-/
inductive PyVal : Type where
  | str (s : String)
  | int (n : Int)
  | bool (b : Bool)
  | pyNone
  | list (xs : List PyVal)
  | tup (xs : List PyVal)
  | pySet (xs : List PyVal)
  | dict (kvs : List (PyVal × PyVal))
  | frozendict (kvs : List (PyVal × PyVal))
  | field (v : PyVal)
  | dataclass (kvs : List (String × PyVal))
  | dictable (kvs : List (String × PyVal))
  | pyobj (s : String)
  deriving Repr

mutual

/-- Structural (Python `==`) equality on `PyVal`. -/
def pvEq : PyVal → PyVal → Bool
  | .str a, .str b => a == b
  | .int a, .int b => a == b
  | .bool a, .bool b => a == b
  | .pyNone, .pyNone => true
  | .list a, .list b => pvEqL a b
  | .tup a, .tup b => pvEqL a b
  | .pySet a, .pySet b => pvEqL a b
  | .dict a, .dict b => pvEqKV a b
  | .frozendict a, .frozendict b => pvEqKV a b
  | .field a, .field b => pvEq a b
  | .dataclass a, .dataclass b => pvEqSKV a b
  | .dictable a, .dictable b => pvEqSKV a b
  | .pyobj a, .pyobj b => a == b
  | _, _ => false
termination_by structural a => a

def pvEqL : List PyVal → List PyVal → Bool
  | [], [] => true
  | a :: as_, b :: bs => pvEq a b && pvEqL as_ bs
  | _, _ => false
termination_by structural a => a

def pvEqKV : List (PyVal × PyVal) → List (PyVal × PyVal) → Bool
  | [], [] => true
  | (k1, v1) :: as_, (k2, v2) :: bs => pvEq k1 k2 && pvEq v1 v2 && pvEqKV as_ bs
  | _, _ => false
termination_by structural a => a

def pvEqSKV : List (String × PyVal) → List (String × PyVal) → Bool
  | [], [] => true
  | (k1, v1) :: as_, (k2, v2) :: bs => k1 == k2 && pvEq v1 v2 && pvEqSKV as_ bs
  | _, _ => false
termination_by structural a => a

end

instance : BEq PyVal := ⟨pvEq⟩

mutual

theorem pvEq_iff : ∀ a b : PyVal, pvEq a b = true ↔ a = b
  | .str a, b => by cases b <;> simp [pvEq]
  | .int a, b => by cases b <;> simp [pvEq]
  | .bool a, b => by cases b <;> simp [pvEq]
  | .pyNone, b => by cases b <;> simp [pvEq]
  | .list a, b => by cases b <;> simp [pvEq, pvEqL_iff a]
  | .tup a, b => by cases b <;> simp [pvEq, pvEqL_iff a]
  | .pySet a, b => by cases b <;> simp [pvEq, pvEqL_iff a]
  | .dict a, b => by cases b <;> simp [pvEq, pvEqKV_iff a]
  | .frozendict a, b => by cases b <;> simp [pvEq, pvEqKV_iff a]
  | .field a, b => by cases b <;> simp [pvEq, pvEq_iff a]
  | .dataclass a, b => by cases b <;> simp [pvEq, pvEqSKV_iff a]
  | .dictable a, b => by cases b <;> simp [pvEq, pvEqSKV_iff a]
  | .pyobj a, b => by cases b <;> simp [pvEq]

theorem pvEqL_iff : ∀ a b : List PyVal, pvEqL a b = true ↔ a = b
  | [], b => by cases b <;> simp [pvEqL]
  | x :: xs, b => by
    cases b <;> simp [pvEqL, pvEq_iff x, pvEqL_iff xs]

theorem pvEqKV_iff : ∀ a b : List (PyVal × PyVal), pvEqKV a b = true ↔ a = b
  | [], b => by cases b <;> simp [pvEqKV]
  | (k, v) :: xs, b => by
    cases b with
    | nil => simp [pvEqKV]
    | cons hd tl =>
      cases hd
      simp [pvEqKV, pvEq_iff k, pvEq_iff v, pvEqKV_iff xs, and_assoc]

theorem pvEqSKV_iff : ∀ a b : List (String × PyVal), pvEqSKV a b = true ↔ a = b
  | [], b => by cases b <;> simp [pvEqSKV]
  | (k, v) :: xs, b => by
    cases b with
    | nil => simp [pvEqSKV]
    | cons hd tl =>
      cases hd
      simp [pvEqSKV, pvEq_iff v, pvEqSKV_iff xs, and_assoc]

end

instance : DecidableEq PyVal := fun a b =>
  decidable_of_iff (pvEq a b = true) (pvEq_iff a b)

instance : LawfulBEq PyVal where
  eq_of_beq h := (pvEq_iff _ _).mp h
  rfl := by intro a; exact (pvEq_iff a a).mpr rfl

end Peek

namespace Peek

/-! ### Text renderings: Python `str()` / `repr()` and JSON string quoting -/

/-- A single-quote character, written via its code point. -/
def squo : String := String.singleton (Char.ofNat 39)

mutual

/-- Models Python `repr()` on the value universe. String escaping inside
`repr` and the exact repr of domain objects (`Field`, dataclasses, …) are
approximated; only the scalar cases (`int`, `bool`, `None`, `str`) are
relied upon by the encoder fallback `str(o)`. -/
def pyRepr : PyVal → String
  | .str s => squo ++ s ++ squo
  | .int n => toString n
  | .bool b => if b then "True" else "False"
  | .pyNone => "None"
  | .list xs => "[" ++ String.intercalate ", " (pyReprL xs) ++ "]"
  | .tup [x] => "(" ++ pyRepr x ++ ",)"
  | .tup xs => "(" ++ String.intercalate ", " (pyReprL xs) ++ ")"
  | .pySet [] => "set()"
  | .pySet xs => "\x7b" ++ String.intercalate ", " (pyReprL xs) ++ "\x7d"
  | .dict kvs => "\x7b" ++ String.intercalate ", " (pyReprKV kvs) ++ "\x7d"
  | .frozendict kvs =>
      "FrozenDict(\x7b" ++ String.intercalate ", " (pyReprKV kvs) ++ "\x7d)"
  | .field v => "Field(value=" ++ pyRepr v ++ ")"
  | .dataclass kvs =>
      "Dataclass(" ++ String.intercalate ", " (pyReprSKV kvs) ++ ")"
  | .dictable kvs =>
      "Dictable(" ++ String.intercalate ", " (pyReprSKV kvs) ++ ")"
  | .pyobj s => s

def pyReprL : List PyVal → List String
  | [] => []
  | x :: xs => pyRepr x :: pyReprL xs

def pyReprKV : List (PyVal × PyVal) → List String
  | [] => []
  | (k, v) :: kvs => (pyRepr k ++ ": " ++ pyRepr v) :: pyReprKV kvs

def pyReprSKV : List (String × PyVal) → List String
  | [] => []
  | (k, v) :: kvs => (k ++ "=" ++ pyRepr v) :: pyReprSKV kvs

end

/-- Models the builtin `str()`: identity on strings, `repr` otherwise
(for an arbitrary object `pyobj s`, `s` is by definition its `str()` text). -/
def pyStr : PyVal → String
  | .str s => s
  | v => pyRepr v

/-- Lowercase hex digit. -/
def hexDigit (n : Nat) : Char :=
  if n < 10 then Char.ofNat (48 + n) else Char.ofNat (87 + n)

/-- Four lowercase hex digits, as in Python json `\uXXXX` escapes. -/
def hex4 (n : Nat) : String :=
  String.mk [hexDigit (n / 4096 % 16), hexDigit (n / 256 % 16),
             hexDigit (n / 16 % 16), hexDigit (n % 16)]

/-- Escape of one character inside a JSON string, per `json.dumps` with
`ensure_ascii=True`: printable ASCII passes through, `"` and `\` and the
control shortcuts are backslash-escaped, everything else becomes `\uXXXX`
(surrogate pairs above the BMP). -/
def escChar (c : Char) : String :=
  if c = Char.ofNat 34 then "\\\""
  else if c = Char.ofNat 92 then "\\\\"
  else if 32 ≤ c.toNat && c.toNat ≤ 126 then String.singleton c
  else if c = Char.ofNat 10 then "\\n"
  else if c = Char.ofNat 13 then "\\r"
  else if c = Char.ofNat 9 then "\\t"
  else if c = Char.ofNat 8 then "\\b"
  else if c = Char.ofNat 12 then "\\f"
  else if c.toNat ≤ 65535 then "\\u" ++ hex4 c.toNat
  else
    "\\u" ++ hex4 (55296 + (c.toNat - 65536) / 1024) ++
    "\\u" ++ hex4 (56320 + (c.toNat - 65536) % 1024)

/-- JSON string literal for `s`, as `json.dumps` renders a `str`. -/
def jquote (s : String) : String :=
  "\"" ++ String.join (s.data.map escChar) ++ "\""

/-- Runtime type name, used in the `TypeError` message text. -/
def typeName : PyVal → String
  | .str _ => "str"
  | .int _ => "int"
  | .bool _ => "bool"
  | .pyNone => "NoneType"
  | .list _ => "list"
  | .tup _ => "tuple"
  | .pySet _ => "set"
  | .dict _ => "dict"
  | .frozendict _ => "FrozenDict"
  | .field _ => "Field"
  | .dataclass _ => "dataclass"
  | .dictable _ => "Dictable"
  | .pyobj _ => "object"

/-- `json.JSONEncoder.default` (the superclass method): it unconditionally
raises `TypeError`, modelled as the error case of `Except`. -/
def superDefault (o : PyVal) : Except String PyVal :=
  .error ("Object of type " ++ typeName o ++ " is not JSON serializable")

/-- Keys of a dataclass / `asdict()` mapping become `str` dict keys. -/
def strKeys (kvs : List (String × PyVal)) : List (PyVal × PyVal) :=
  kvs.map (fun p => (.str p.1, p.2))

/-- `_PeekJsonEncoder.default` from `peek.py`, case for case in source
order (the constructors being disjoint, each `isinstance` branch is one
or more patterns):
`str` → itself; `None` → itself; a dataclass → the dict of its fields;
a `Mapping` (plain dict or `FrozenDict`) → `dict(o)`; a `Sequence`
(list, tuple) or a set → `list(o)`; a `Field` → `self.default(o.value)`;
a `Dictable` → `o.asdict()`; otherwise `super().default(o)` is tried and
its `TypeError` is caught, returning `str(o)` (`int` and `bool` also land
here: they are none of str/dataclass/Mapping/Sequence/set/Field/Dictable). -/
def pydefault : PyVal → PyVal
  | .str s => .str s
  | .pyNone => .pyNone
  | .dataclass kvs => .dict (strKeys kvs)
  | .dict kvs => .dict kvs
  | .frozendict kvs => .dict kvs
  | .list xs => .list xs
  | .tup xs => .list xs
  | .pySet xs => .list xs
  | .field v => pydefault v
  | .dictable kvs => .dict (strKeys kvs)
  | .int n =>
      match superDefault (.int n) with
      | .ok v => v
      | .error _ => .str (pyStr (.int n))
  | .bool b =>
      match superDefault (.bool b) with
      | .ok v => v
      | .error _ => .str (pyStr (.bool b))
  | .pyobj s =>
      match superDefault (.pyobj s) with
      | .ok v => v
      | .error _ => .str (pyStr (.pyobj s))

/-! ### A size measure under which `default` is non-increasing -/

mutual

def psize : PyVal → Nat
  | .str _ => 1
  | .int _ => 1
  | .bool _ => 1
  | .pyNone => 1
  | .list xs => 1 + psizeL xs
  | .tup xs => 1 + psizeL xs
  | .pySet xs => 2 + psizeL xs
  | .dict kvs => 1 + psizeKV kvs
  | .frozendict kvs => 2 + psizeKV kvs
  | .field v => 2 + psize v
  | .dataclass kvs => 2 + psizeSKV kvs
  | .dictable kvs => 2 + psizeSKV kvs
  | .pyobj _ => 2

def psizeL : List PyVal → Nat
  | [] => 0
  | x :: xs => psize x + psizeL xs + 1

def psizeKV : List (PyVal × PyVal) → Nat
  | [] => 0
  | (k, v) :: kvs => psize k + psize v + 1 + psizeKV kvs

def psizeSKV : List (String × PyVal) → Nat
  | [] => 0
  | (_, v) :: kvs => psize v + 2 + psizeSKV kvs

end

theorem psizeKV_strKeys (kvs : List (String × PyVal)) :
    psizeKV (strKeys kvs) = psizeSKV kvs := by
  induction kvs with
  | nil => rfl
  | cons p rest ih =>
    cases p
    simp [strKeys, psizeKV, psizeSKV, psize] at ih ⊢
    omega

theorem psize_pydefault_le : ∀ v, psize (pydefault v) ≤ psize v
  | .str _ => by simp [pydefault, psize]
  | .int _ => by simp [pydefault, superDefault, psize]
  | .bool _ => by simp [pydefault, superDefault, psize]
  | .pyNone => by simp [pydefault, psize]
  | .list _ => by simp [pydefault, psize]
  | .tup _ => by simp [pydefault, psize]
  | .pySet _ => by simp [pydefault, psize]
  | .dict _ => by simp [pydefault, psize]
  | .frozendict _ => by simp [pydefault, psize]
  | .field v => by
      have h := psize_pydefault_le v
      simp only [pydefault, psize]
      omega
  | .dataclass kvs => by simp [pydefault, psize, psizeKV_strKeys]
  | .dictable kvs => by simp [pydefault, psize, psizeKV_strKeys]
  | .pyobj _ => by simp [pydefault, superDefault, psize]

/-! ### `json.dumps` with the `_PeekJsonEncoder` -/

/-- Rendering of a dict key, per `json.dumps`: a `str` key directly, the
basic scalars converted to text, anything else raises `TypeError`. -/
def keyText : PyVal → Except String String
  | .str s => .ok (jquote s)
  | .int n => .ok (jquote (toString n))
  | .bool b => .ok (jquote (if b then "true" else "false"))
  | .pyNone => .ok (jquote "null")
  | k => .error ("keys must be str, int, float, bool or None, not " ++ typeName k)

mutual

/-- `json.dumps(o, cls=_PeekJsonEncoder)`: natively serializable values
(str, int, bool, None, list, tuple, dict) are rendered directly; any
other object is replaced by `_PeekJsonEncoder.default` of it (`pydefault`)
and rendering continues on the result. Whitespace/indentation is not
modelled (items joined by `", "`, keys by `": "`). -/
def dumps : PyVal → Except String String
  | .str s => .ok (jquote s)
  | .int n => .ok (toString n)
  | .bool b => .ok (if b then "true" else "false")
  | .pyNone => .ok "null"
  | .list xs => do pure ("[" ++ String.intercalate ", " (← dumpsL xs) ++ "]")
  | .tup xs => do pure ("[" ++ String.intercalate ", " (← dumpsL xs) ++ "]")
  | .dict kvs => do pure ("\x7b" ++ String.intercalate ", " (← dumpsKV kvs) ++ "\x7d")
  | .pySet xs => dumps (pydefault (.pySet xs))
  | .frozendict kvs => dumps (pydefault (.frozendict kvs))
  | .field v => dumps (pydefault (.field v))
  | .dataclass kvs => dumps (pydefault (.dataclass kvs))
  | .dictable kvs => dumps (pydefault (.dictable kvs))
  | .pyobj s => dumps (pydefault (.pyobj s))

termination_by o => psize o
decreasing_by
  all_goals simp only [psize, psizeL, psizeKV, pydefault, superDefault,
    psizeKV_strKeys]
  all_goals try omega
  all_goals exact lt_of_le_of_lt (psize_pydefault_le _) (by omega)

def dumpsL : List PyVal → Except String (List String)
  | [] => .ok []
  | x :: xs => do pure ((← dumps x) :: (← dumpsL xs))
termination_by xs => psizeL xs
decreasing_by
  all_goals simp only [psizeL]
  all_goals omega

def dumpsKV : List (PyVal × PyVal) → Except String (List String)
  | [] => .ok []
  | (k, v) :: kvs => do
      pure (((← keyText k) ++ ": " ++ (← dumps v)) :: (← dumpsKV kvs))
termination_by kvs => psizeKV kvs
decreasing_by
  all_goals simp only [psizeKV]
  all_goals omega

end

end Peek

namespace Peek

/-! ### Python dicts as association lists with insertion-order semantics -/

/-- Setting `m[k] = v` on a Python dict: if the key is present its value is
updated in place (position kept), otherwise the pair is appended. -/
def dinsert {κ υ : Type} [DecidableEq κ] (m : List (κ × υ)) (k : κ) (v : υ) :
    List (κ × υ) :=
  if m.any (fun p => decide (p.1 = k)) then
    m.map (fun p => if p.1 = k then (p.1, v) else p)
  else m ++ [(k, v)]

/-- The keys of a dict, in order. -/
def dkeys {κ υ : Type} (m : List (κ × υ)) : List κ := m.map Prod.fst

/-- `m.get(k)` on a Python dict (`None` when absent). -/
def dlookup {κ υ : Type} [DecidableEq κ] (k : κ) : List (κ × υ) → Option υ
  | [] => none
  | p :: rest => if p.1 = k then some p.2 else dlookup k rest

/-- `d.update(items)` semantics: fold `dinsert` over `items`, starting from
`base` (this is how `{**a, **b}` combines two dicts). -/
def pyDictMerge {κ υ : Type} [DecidableEq κ] (base items : List (κ × υ)) :
    List (κ × υ) :=
  items.foldl (fun acc p => dinsert acc p.1 p.2) base

end Peek

namespace Peek

/-! ### The data model of `peek.py` -/

/-- A `Field` subclass `k` as it appears in `Target.field_values.items()`:
its `alias`, whether it subclasses `SourcesField` or `Dependencies` (which
triggers the `_raw` key rename in `to_dict`), and its declared `default`
(`none` when the class has no `default` attribute, making
`getattr(k, "default", nothing)` return the fresh sentinel). -/
structure FieldType where
  «alias» : String
  isSourcesOrDependencies : Bool
  default : Option PyVal
  deriving DecidableEq, Repr

/-- `engine.fs.Snapshot`: the hydrated source files and the digest
fingerprint, as consumed by `to_dict`. -/
structure Snapshot where
  files : List String
  fingerprint : String
  deriving DecidableEq, Repr

/-- A build target: its `Address` (modelled by its `spec` string, which
also carries the total order used for sorting), its `alias` (target type
name), its `field_values` mapping (field class ↦ the field value `v.value`),
and whether a `SourcesField` is registered on it (`tgt.has_field(SourcesField)`). -/
structure Target where
  address : String
  «alias» : String
  field_values : List (FieldType × PyVal)
  hasSourcesField : Bool
  deriving DecidableEq, Repr

/-- `AdditionalTargetData` (the record part: `label` and the stored,
already-normalized `data`). -/
structure AdditionalTargetData where
  label : String
  data : PyVal
  deriving DecidableEq, Repr

mutual

/-- Modelled from the spec: `FrozenDict.deep_freeze` lives in
`pants.util.frozendict`, which is not under `src/`; per the claim text,
"a mapping is replaced by a deeply frozen mapping", i.e. mappings are
recursively converted to `FrozenDict` and lists/sets to tuples. -/
def deepFreeze : PyVal → PyVal
  | .dict kvs => .frozendict (deepFreezeKV kvs)
  | .frozendict kvs => .frozendict (deepFreezeKV kvs)
  | .list xs => .tup (deepFreezeL xs)
  | .pySet xs => .tup (deepFreezeL xs)
  | v => v

def deepFreezeL : List PyVal → List PyVal
  | [] => []
  | x :: xs => deepFreeze x :: deepFreezeL xs

def deepFreezeKV : List (PyVal × PyVal) → List (PyVal × PyVal)
  | [] => []
  | (k, v) :: kvs => (k, deepFreeze v) :: deepFreezeKV kvs

end

end Peek

namespace Peek

/-- `AdditionalTargetData.__init__`: stores `label` unchanged; a `Mapping`
datum is replaced by `FrozenDict.deep_freeze(data)`, a `list` or `set` by
`tuple(data)` (note: shallow), anything else is stored as is. -/
def AdditionalTargetData.init (label : String) (data : PyVal) :
    AdditionalTargetData :=
  ⟨label,
    match data with
    | .dict kvs => deepFreeze (.dict kvs)
    | .frozendict kvs => deepFreeze (.frozendict kvs)
    | .list xs => .tup xs
    | .pySet xs => .tup xs
    | d => d⟩

mutual

/-- `_normalize_value`: a `Mapping` is rebuilt as a plain dict comprehension
`{str(k): _normalize_value(v) for k, v in val.items()}` (so keys are
stringified and values recursively normalized, with dict-comprehension
collision semantics); every other value is returned unchanged. -/
def _normalize_value : PyVal → PyVal
  | .dict kvs => .dict (normItems kvs [])
  | .frozendict kvs => .dict (normItems kvs [])
  | v => v
termination_by structural v => v

/-- The dict comprehension inside `_normalize_value`, as a left fold of
insertions into an initially empty dict. -/
def normItems : List (PyVal × PyVal) → List (PyVal × PyVal) →
    List (PyVal × PyVal)
  | [], acc => acc
  | (k, v) :: rest, acc =>
      normItems rest (dinsert acc (.str (pyStr k)) (_normalize_value v))
termination_by structural kvs _ => kvs

end

/-! ### Orders used for sorting

Python compares strings lexicographically by code point; that order is
implemented here directly (`charListLe`/`strLe`/`strLt`) so every use is
an executable definition of this file. -/

/-- Lexicographic code-point `≤` on character lists. -/
def charListLe : List Char → List Char → Bool
  | [], _ => true
  | _ :: _, [] => false
  | a :: as_, b :: bs =>
      if a.toNat < b.toNat then true
      else if b.toNat < a.toNat then false
      else charListLe as_ bs

/-- Lexicographic (code-point) `≤` on strings, Python string comparison. -/
def strLe (a b : String) : Prop := charListLe a.data b.data = true

/-- Strict lexicographic order on strings. -/
def strLt (a b : String) : Prop := strLe a b ∧ a ≠ b

instance : DecidableRel strLe := fun a b =>
  inferInstanceAs (Decidable (charListLe a.data b.data = true))

instance : DecidableRel strLt := fun a b =>
  inferInstanceAs (Decidable (strLe a b ∧ a ≠ b))

theorem charListLe_total : ∀ a b, charListLe a b = true ∨ charListLe b a = true
  | [], _ => by left; rfl
  | _ :: _, [] => by right; rfl
  | a :: as_, b :: bs => by
    simp only [charListLe]
    rcases Nat.lt_trichotomy a.toNat b.toNat with h | h | h
    · left; simp [h]
    · have hne : ¬ a.toNat < b.toNat := by omega
      have hne2 : ¬ b.toNat < a.toNat := by omega
      rcases charListLe_total as_ bs with ih | ih
      · left; simp [hne, hne2, ih]
      · right; simp [hne, hne2, ih]
    · right; simp [h]

theorem charListLe_trans :
    ∀ a b c, charListLe a b = true → charListLe b c = true →
      charListLe a c = true
  | [], _, _ => by intro _ _; rfl
  | x :: xs, [], _ => by intro h; exact absurd h (by simp [charListLe])
  | x :: xs, y :: ys, [] => by intro _ h; exact absurd h (by simp [charListLe])
  | x :: xs, y :: ys, z :: zs => by
    intro h1 h2
    simp only [charListLe] at h1 h2 ⊢
    rcases Nat.lt_trichotomy x.toNat y.toNat with hxy | hxy | hxy <;>
      rcases Nat.lt_trichotomy y.toNat z.toNat with hyz | hyz | hyz <;>
      simp_all [Nat.lt_irrefl] <;> first
      | omega
      | (exact charListLe_trans xs ys zs h1 h2)

theorem char_toNat_inj {a b : Char} (h : a.toNat = b.toNat) : a = b :=
  Char.ext (UInt32.ext h)

theorem charListLe_antisymm :
    ∀ a b, charListLe a b = true → charListLe b a = true → a = b
  | [], [] => by intro _ _; rfl
  | [], _ :: _ => by intro _ h; exact absurd h (by simp [charListLe])
  | _ :: _, [] => by intro h _; exact absurd h (by simp [charListLe])
  | a :: as_, b :: bs => by
    intro h1 h2
    simp only [charListLe] at h1 h2
    by_cases hab : a.toNat < b.toNat
    · have hba : ¬ b.toNat < a.toNat := by omega
      simp [hab, hba] at h2
    · by_cases hba : b.toNat < a.toNat
      · simp [hab, hba] at h1
      · simp [hab, hba] at h1 h2
        rw [char_toNat_inj (show a.toNat = b.toNat by omega),
          charListLe_antisymm as_ bs h1 h2]

theorem strLe_total (a b : String) : strLe a b ∨ strLe b a :=
  charListLe_total a.data b.data

theorem strLe_trans {a b c : String} (h1 : strLe a b) (h2 : strLe b c) :
    strLe a c :=
  charListLe_trans a.data b.data c.data h1 h2

theorem strLe_antisymm {a b : String} (h1 : strLe a b) (h2 : strLe b a) :
    a = b := by
  cases a; cases b
  exact congrArg String.mk (charListLe_antisymm _ _ h1 h2)

theorem strLe_refl (a : String) : strLe a a := by
  rcases strLe_total a a with h | h <;> exact h

/-- Comparison used by `sorted(fields.items())`: Python compares the
`(key, value)` tuples, which on a dict (unique keys) is comparison of the
keys. -/
def keyLE (a b : String × PyVal) : Prop := strLe a.1 b.1

instance : DecidableRel keyLE := fun a b =>
  inferInstanceAs (Decidable (strLe a.1 b.1))

instance : IsTotal (String × PyVal) keyLE := ⟨fun a b => strLe_total a.1 b.1⟩

instance : IsTrans (String × PyVal) keyLE :=
  ⟨fun _ _ _ h1 h2 => strLe_trans h1 h2⟩

/-- Comparison used by `sorted(self.additional_info, key=lambda atd: atd.label)`. -/
def labelLE (a b : AdditionalTargetData) : Prop := strLe a.label b.label

instance : DecidableRel labelLE := fun a b =>
  inferInstanceAs (Decidable (strLe a.label b.label))

instance : IsTotal AdditionalTargetData labelLE :=
  ⟨fun a b => strLe_total a.label b.label⟩

instance : IsTrans AdditionalTargetData labelLE :=
  ⟨fun _ _ _ h1 h2 => strLe_trans h1 h2⟩

/-- Comparison used by `sorted(targets, key=lambda tgt: tgt.address)`. -/
def addrLE (a b : Target) : Prop := strLe a.address b.address

instance : DecidableRel addrLE := fun a b =>
  inferInstanceAs (Decidable (strLe a.address b.address))

instance : IsTotal Target addrLE := ⟨fun a b => strLe_total a.address b.address⟩

instance : IsTrans Target addrLE := ⟨fun _ _ _ h1 h2 => strLe_trans h1 h2⟩

/-! ### `TargetData.to_dict` -/

/-- The key under which a static field is emitted:
`f"{k.alias}_raw" if issubclass(k, (SourcesField, Dependencies)) else k.alias`. -/
def renderedAlias (k : FieldType) : String :=
  if k.isSourcesOrDependencies then k.alias ++ "_raw" else k.alias

/-- The comprehension filter of `to_dict`: an item `(k, v)` is kept iff
`not (exclude_defaults and getattr(k, "default", nothing) == v.value)`
(when the field class declares no `default`, the fresh `nothing` sentinel
compares unequal to every value, so the entry is kept). -/
def keepField (exclude_defaults : Bool) (p : FieldType × PyVal) : Bool :=
  !(exclude_defaults &&
      (match p.1.default with
       | some d => pvEq d p.2
       | none => false))

/-- The opening dict comprehension of `to_dict`: one entry per kept item of
`self.target.field_values`, under the rendered key, with the value
normalized. -/
def staticFields (tgt : Target) (exclude_defaults : Bool) :
    List (String × PyVal) :=
  tgt.field_values.foldl
    (fun acc p =>
      if keepField exclude_defaults p then
        dinsert acc (renderedAlias p.1) (_normalize_value p.2)
      else acc)
    []

/-- A `tuple[str, ...] | None` value as stored into the fields dict. -/
def optStrTup : Option (List String) → PyVal
  | some l => .tup (l.map .str)
  | none => .pyNone

/-- A `tuple[DependencyRuleApplication, ...] | None` value as stored into
the fields dict. -/
def optPvTup : Option (List PyVal) → PyVal
  | some l => .tup l
  | none => .pyNone

/-- `{atd.label: atd.data for atd in sorted(self.additional_info,
key=lambda atd: atd.label)}`. -/
def additionalInfoDict (ais : List AdditionalTargetData) :
    List (PyVal × PyVal) :=
  (List.insertionSort labelLE ais).foldl
    (fun acc atd => dinsert acc (.str atd.label) atd.data) []

/-- `TargetData` (a frozen dataclass); the trailing five fields default to
`None` exactly as in the source. -/
structure TargetData where
  target : Target
  expanded_sources : Option Snapshot
  expanded_dependencies : List String
  dependencies_rules : Option (List String) := none
  dependents_rules : Option (List String) := none
  applicable_dep_rules : Option (List PyVal) := none
  goals : Option (List String) := none
  additional_info : Option (List AdditionalTargetData) := none
  deriving DecidableEq, Repr

/-- `fields["dependencies"] = self.expanded_dependencies`. -/
def fields_dependencies (td : TargetData) (fields : List (String × PyVal)) :
    List (String × PyVal) :=
  dinsert fields "dependencies" (.tup (td.expanded_dependencies.map .str))

/-- `if self.expanded_sources is not None: fields["sources"] = …;
fields["sources_fingerprint"] = …`. -/
def fields_sources (td : TargetData) (fields : List (String × PyVal)) :
    List (String × PyVal) :=
  match td.expanded_sources with
  | some snap =>
      dinsert (dinsert fields "sources" (.tup (snap.files.map .str)))
        "sources_fingerprint" (.str snap.fingerprint)
  | none => fields

/-- `if include_dep_rules:` the three rule keys are set unconditionally
(to the stored value, which may be `None`). -/
def fields_dep_rules (td : TargetData) (include_dep_rules : Bool)
    (fields : List (String × PyVal)) : List (String × PyVal) :=
  if include_dep_rules then
    dinsert (dinsert (dinsert fields
      "_dependencies_rules" (optStrTup td.dependencies_rules))
      "_dependents_rules" (optStrTup td.dependents_rules))
      "_applicable_dep_rules" (optPvTup td.applicable_dep_rules)
  else fields

/-- `if self.goals is not None: fields["goals"] = self.goals`. -/
def fields_goals (td : TargetData) (fields : List (String × PyVal)) :
    List (String × PyVal) :=
  match td.goals with
  | some gs => dinsert fields "goals" (.tup (gs.map .str))
  | none => fields

/-- `if self.additional_info is not None: fields["additional_info"] = {…}`. -/
def fields_additional_info (td : TargetData) (fields : List (String × PyVal)) :
    List (String × PyVal) :=
  match td.additional_info with
  | some ais => dinsert fields "additional_info" (.dict (additionalInfoDict ais))
  | none => fields

/-- The local variable `fields` of `TargetData.to_dict` after all its
updates, statement for statement: the static-fields comprehension, then
the computed `dependencies`, optional `sources`/`sources_fingerprint`, the
three rule keys under `include_dep_rules`, `goals` only when not `None`,
`additional_info` only when not `None`. -/
def to_dict_fields (td : TargetData) (exclude_defaults : Bool)
    (include_dep_rules : Bool) : List (String × PyVal) :=
  fields_additional_info td
    (fields_goals td
      (fields_dep_rules td include_dep_rules
        (fields_sources td
          (fields_dependencies td
            (staticFields td.target exclude_defaults)))))

/-- `TargetData.to_dict`: the `fields` dict is assembled by
`to_dict_fields`, and the returned dict is
`{"address": …, "target_type": …, **dict(sorted(fields.items()))}`. -/
def TargetData.to_dict (td : TargetData) (exclude_defaults : Bool)
    (include_dep_rules : Bool) : List (String × PyVal) :=
  pyDictMerge
    [("address", .str td.target.address), ("target_type", .str td.target.alias)]
    (List.insertionSort keyLE (to_dict_fields td exclude_defaults include_dep_rules))

end Peek

namespace Peek

/-! ### The rules `get_target_data` and `peek` -/

/-- The peek subsystem options. -/
structure PeekSubsystem where
  exclude_defaults : Bool
  include_dep_rules : Bool
  include_additional_info : Bool
  deriving DecidableEq, Repr

/-- One member of `union_membership[HasAdditionalTargetDataFieldSet]`:
its applicability predicate (`field_set_type.is_applicable`) composed with
the engine rule `Get(AdditionalTargetData, …, field_set_type.create(tgt))`
producing the plugin datum for a target. -/
structure Plugin where
  is_applicable : Target → Bool
  create : Target → AdditionalTargetData

/-- The engine queries issued by `get_target_data`, abstracted as pure
per-target results (each query is keyed by the requesting target and the
engine re-associates results by zipping, so a function of the target is the
faithful summary): expanded dependency address specs, the hydrated source
snapshot, the described dependencies/dependents ruleset of the target's
owning family (`none` when `family.…_rules is None`, `some none` when
`get_ruleset` finds no ruleset for the address, cf. `describe_ruleset`),
and the per-edge `DependencyRuleApplication` values. -/
structure EngineOracle where
  depsOf : Target → List String
  hydrate : Target → Snapshot
  dependenciesRulesOf : Target → Option (Option (List String))
  dependentsRulesOf : Target → Option (Option (List String))
  applicableRulesOf : Target → List PyVal

/-- The per-target content of `group_additional_infos_by_address`: the
`AdditionalTargetData` of each applicable plugin field-set type, in
membership order (the group map is keyed by the field set address, which is
the target address). -/
def pluginInfos (plugins : List Plugin) (tgt : Target) :
    List AdditionalTargetData :=
  (plugins.filter (fun p => p.is_applicable tgt)).map (fun p => p.create tgt)

/-- The body of `get_target_data`: sort the targets by address, then build
one `TargetData` per target. `dependencies_rules`/`dependents_rules` come
from maps populated only under `include_dep_rules` and only for targets
whose family declares the ruleset (`.get` returns `None` otherwise — the
`Option.join`); `applicable_dep_rules` is populated for every target under
`include_dep_rules`; `goals` is always `None` here; `additional_info` is
`group_additional_infos_by_address.get(tgt.address, () if
subsys.include_additional_info else None)`, where the group map holds, per
target, the data of the applicable plugins in membership order. -/
def get_target_data (eng : EngineOracle) (plugins : List Plugin)
    (targets : List Target) (subsys : PeekSubsystem) : List TargetData :=
  let sorted_targets := List.insertionSort addrLE targets
  sorted_targets.map (fun tgt =>
    { target := tgt
      expanded_sources :=
        if tgt.hasSourcesField then some (eng.hydrate tgt) else none
      expanded_dependencies := eng.depsOf tgt
      dependencies_rules :=
        if subsys.include_dep_rules then (eng.dependenciesRulesOf tgt).join
        else none
      dependents_rules :=
        if subsys.include_dep_rules then (eng.dependentsRulesOf tgt).join
        else none
      applicable_dep_rules :=
        if subsys.include_dep_rules then some (eng.applicableRulesOf tgt)
        else none
      goals := none
      additional_info :=
        if subsys.include_additional_info then some (pluginInfos plugins tgt)
        else none })

/-- `alias_to_goals_map.setdefault(alias, set()).add(goal)`: the per-alias
goal set is modelled as a duplicate-free list (adding an already-present
goal is a no-op; iteration order is immaterial because the set is sorted
before being emitted). -/
def msetAdd (m : List (String × List String)) (a goal : String) :
    List (String × List String) :=
  if m.any (fun p => decide (p.1 = a)) then
    m.map (fun p =>
      if p.1 = a then (p.1, if goal ∈ p.2 then p.2 else p.2 ++ [goal]) else p)
  else m ++ [(a, [goal])]

/-- `_create_target_alias_to_goals_map`: the manually curated table pairs
the five goal names (in field-set order: deploy, package, publish, run,
test) with the alias sets the engine reports per field-set superclass
(`aliases_per_target_root`, the engine input of this function); the map is
inverted into alias ↦ goal set and each set is emitted as
`tuple(sorted(goals))`. -/
def _create_target_alias_to_goals_map
    (aliases_per_target_root : List (List String)) :
    List (String × List String) :=
  let peekable_goals := ["deploy", "package", "publish", "run", "test"]
  let goal_to_aliases_map := peekable_goals.zip aliases_per_target_root
  let alias_to_goals_map :=
    goal_to_aliases_map.foldl
      (fun m p => p.2.foldl (fun m a => msetAdd m a p.1) m) []
  alias_to_goals_map.map
    (fun p => (p.1, List.insertionSort strLe p.2))

/-- The goal-attaching pass of the `peek` goal rule: when the map is
non-empty, each `TargetData` is rebuilt passing
`td.target, td.expanded_sources, td.expanded_dependencies,
td.dependencies_rules, td.dependents_rules, td.applicable_dep_rules,
target_alias_to_goals_map.get(td.target.alias)` — seven positional
arguments, so `additional_info` is NOT forwarded and silently takes the
dataclass default `None`. -/
def attach_goals (tds : List TargetData)
    (target_alias_to_goals_map : List (String × List String)) :
    List TargetData :=
  if target_alias_to_goals_map.isEmpty then tds
  else
    tds.map (fun td =>
      { target := td.target
        expanded_sources := td.expanded_sources
        expanded_dependencies := td.expanded_dependencies
        dependencies_rules := td.dependencies_rules
        dependents_rules := td.dependents_rules
        applicable_dep_rules := td.applicable_dep_rules
        goals := dlookup td.target.alias target_alias_to_goals_map })

/-- The `peek` goal rule up to rendering: fetch the `TargetDatas`, compute
the alias-to-goals map, attach goals when the map is non-empty, and emit
one dict per target (the JSON document is the array of these dicts in
order). -/
def peek_objects (eng : EngineOracle) (plugins : List Plugin)
    (targets : List Target) (subsys : PeekSubsystem)
    (aliases_per_target_root : List (List String)) :
    List (List (String × PyVal)) :=
  let tds := get_target_data eng plugins targets subsys
  let target_alias_to_goals_map :=
    _create_target_alias_to_goals_map aliases_per_target_root
  let tds := attach_goals tds target_alias_to_goals_map
  tds.map (fun td => td.to_dict subsys.exclude_defaults subsys.include_dep_rules)

end Peek

set_option maxRecDepth 100000

namespace Peek

/-! ### Lemmas about the dict model -/

variable {κ υ : Type} [DecidableEq κ]

theorem dany_iff_mem (m : List (κ × υ)) (k : κ) :
    (m.any (fun p => decide (p.1 = k))) = true ↔ k ∈ dkeys m := by
  induction m with
  | nil => simp [dkeys]
  | cons p rest ih =>
    simp only [List.any_cons, Bool.or_eq_true, decide_eq_true_eq, dkeys,
      List.map_cons, List.mem_cons, ih]
    constructor
    · rintro (h | h) <;> [exact Or.inl h.symm; exact Or.inr h]
    · rintro (h | h) <;> [exact Or.inl h.symm; exact Or.inr h]

theorem dkeys_dinsert (m : List (κ × υ)) (k : κ) (v : υ) :
    dkeys (dinsert m k v) =
      if k ∈ dkeys m then dkeys m else dkeys m ++ [k] := by
  by_cases h : k ∈ dkeys m
  · rw [if_pos h]
    unfold dinsert
    rw [if_pos ((dany_iff_mem m k).mpr h)]
    unfold dkeys
    rw [List.map_map]
    apply List.map_congr_left
    intro p _
    by_cases hp : p.1 = k <;> simp [hp]
  · rw [if_neg h]
    unfold dinsert
    rw [if_neg (fun hc => h ((dany_iff_mem m k).mp hc))]
    simp [dkeys]

theorem mem_dkeys_dinsert (m : List (κ × υ)) (k k2 : κ) (v : υ) :
    k2 ∈ dkeys (dinsert m k v) ↔ k2 ∈ dkeys m ∨ k2 = k := by
  rw [dkeys_dinsert]
  by_cases h : k ∈ dkeys m
  · rw [if_pos h]
    constructor
    · exact fun hh => Or.inl hh
    · rintro (hh | rfl) <;> [exact hh; exact h]
  · rw [if_neg h]
    simp

theorem nodup_dkeys_dinsert (m : List (κ × υ)) (k : κ) (v : υ)
    (h : (dkeys m).Nodup) : (dkeys (dinsert m k v)).Nodup := by
  rw [dkeys_dinsert]
  by_cases hk : k ∈ dkeys m
  · rwa [if_pos hk]
  · rw [if_neg hk]
    simp [List.nodup_append, h, hk]

theorem dlookup_eq_none_iff (m : List (κ × υ)) (k : κ) :
    dlookup k m = none ↔ k ∉ dkeys m := by
  induction m with
  | nil => simp [dlookup, dkeys]
  | cons p rest ih =>
    unfold dlookup
    by_cases h : p.1 = k
    · simp [h, dkeys]
    · rw [if_neg h, ih]
      simp only [dkeys, List.map_cons, List.mem_cons, not_or]
      constructor
      · intro hn
        exact ⟨fun hc => h hc.symm, hn⟩
      · intro hn
        exact hn.2

theorem dlookup_map_update (m : List (κ × υ)) (k : κ) (v : υ) :
    dlookup k (m.map (fun p => if p.1 = k then (p.1, v) else p)) =
      (dlookup k m).map (fun _ => v) := by
  induction m with
  | nil => simp [dlookup]
  | cons p rest ih =>
    by_cases h : p.1 = k
    · simp [dlookup, h]
    · simp [dlookup, h, ih]

theorem dlookup_cons (p : κ × υ) (rest : List (κ × υ)) (k : κ) :
    dlookup k (p :: rest) = if p.1 = k then some p.2 else dlookup k rest :=
  rfl

theorem dlookup_append_right (m m2 : List (κ × υ)) (k : κ)
    (h : k ∉ dkeys m) : dlookup k (m ++ m2) = dlookup k m2 := by
  induction m with
  | nil => simp
  | cons p rest ih =>
    simp only [dkeys, List.map_cons, List.mem_cons, not_or] at h
    rw [List.cons_append, dlookup_cons, if_neg (fun hc => h.1 hc.symm)]
    exact ih (by simpa [dkeys] using h.2)

theorem dlookup_dinsert_self (m : List (κ × υ)) (k : κ) (v : υ) :
    dlookup k (dinsert m k v) = some v := by
  unfold dinsert
  by_cases h : k ∈ dkeys m
  · rw [if_pos ((dany_iff_mem m k).mpr h), dlookup_map_update]
    rcases Option.ne_none_iff_exists.mp
      (show dlookup k m ≠ none from
        fun hc => ((dlookup_eq_none_iff m k).mp hc) h) with ⟨w, hw⟩
    rw [← hw]
    rfl
  · rw [if_neg (fun hc => h ((dany_iff_mem m k).mp hc)),
      dlookup_append_right m _ k h, dlookup_cons, if_pos rfl]

theorem dlookup_dinsert_ne (m : List (κ × υ)) (k k2 : κ) (v : υ)
    (h : k2 ≠ k) : dlookup k2 (dinsert m k v) = dlookup k2 m := by
  unfold dinsert
  by_cases hk : (m.any (fun p => decide (p.1 = k))) = true
  · rw [if_pos hk]
    clear hk
    induction m with
    | nil => simp [dlookup]
    | cons p rest ih =>
      rw [List.map_cons, dlookup_cons, dlookup_cons]
      by_cases hp : p.1 = k
      · rw [if_pos hp]
        have hpk2 : p.1 ≠ k2 := fun hc => h (hc.symm.trans hp)
        rw [if_neg (show ¬ ((p.1, v).1 = k2) from hpk2), if_neg hpk2]
        exact ih
      · rw [if_neg hp]
        by_cases hp2 : p.1 = k2
        · rw [if_pos hp2, if_pos hp2]
        · rw [if_neg hp2, if_neg hp2]
          exact ih
  · rw [if_neg hk]
    clear hk
    induction m with
    | nil =>
      simp only [List.nil_append, dlookup_cons, dlookup]
      rw [if_neg (fun hc => h hc.symm)]
    | cons p rest ih =>
      rw [List.cons_append, dlookup_cons, dlookup_cons]
      by_cases hp : p.1 = k2
      · rw [if_pos hp, if_pos hp]
      · rw [if_neg hp, if_neg hp]
        exact ih

end Peek

namespace Peek

variable {κ υ : Type} [DecidableEq κ]

theorem pyDictMerge_nil (base : List (κ × υ)) : pyDictMerge base [] = base :=
  rfl

theorem pyDictMerge_cons (base : List (κ × υ)) (p : κ × υ)
    (rest : List (κ × υ)) :
    pyDictMerge base (p :: rest) = pyDictMerge (dinsert base p.1 p.2) rest :=
  rfl

theorem nodup_dkeys_pyDictMerge (items : List (κ × υ)) :
    ∀ base : List (κ × υ), (dkeys base).Nodup →
      (dkeys (pyDictMerge base items)).Nodup := by
  induction items with
  | nil => intro base h; exact h
  | cons p rest ih =>
    intro base h
    rw [pyDictMerge_cons]
    exact ih _ (nodup_dkeys_dinsert base p.1 p.2 h)

theorem dlookup_pyDictMerge_not_items (items : List (κ × υ)) (k : κ)
    (hk : k ∉ dkeys items) :
    ∀ base : List (κ × υ), dlookup k (pyDictMerge base items) =
      dlookup k base := by
  induction items with
  | nil => intro base; rfl
  | cons p rest ih =>
    intro base
    simp only [dkeys, List.map_cons, List.mem_cons, not_or] at hk
    rw [pyDictMerge_cons,
      ih (by simpa [dkeys] using hk.2) (dinsert base p.1 p.2),
      dlookup_dinsert_ne base p.1 k p.2 hk.1]

theorem dlookup_pyDictMerge_of_items (items : List (κ × υ)) (k : κ)
    (hnd : (dkeys items).Nodup) :
    ∀ base : List (κ × υ), k ∉ dkeys base →
      dlookup k (pyDictMerge base items) = dlookup k items := by
  induction items with
  | nil =>
    intro base hb
    rw [pyDictMerge_nil]
    rw [(dlookup_eq_none_iff base k).mpr hb]
    rfl
  | cons p rest ih =>
    intro base hb
    simp only [dkeys, List.map_cons, List.nodup_cons] at hnd
    rw [pyDictMerge_cons, dlookup_cons]
    by_cases hp : p.1 = k
    · rw [if_pos hp]
      rw [hp] at hnd
      rw [dlookup_pyDictMerge_not_items rest k
        (by simpa [dkeys] using hnd.1) (dinsert base p.1 p.2)]
      rw [hp, dlookup_dinsert_self]
    · rw [if_neg hp]
      rw [ih (by simpa [dkeys] using hnd.2) (dinsert base p.1 p.2)
        (fun hc => by
          rcases (mem_dkeys_dinsert base p.1 k p.2).mp hc with hc2 | hc2
          · exact hb hc2
          · exact hp hc2.symm)]

theorem dkeys_pyDictMerge (items : List (κ × υ))
    (hnd : (dkeys items).Nodup) :
    ∀ base : List (κ × υ),
      dkeys (pyDictMerge base items) =
        dkeys base ++ (dkeys items).filter
          (fun kk => !(decide (kk ∈ dkeys base))) := by
  induction items with
  | nil => intro base; simp [pyDictMerge_nil, dkeys]
  | cons p rest ih =>
    intro base
    simp only [dkeys, List.map_cons, List.nodup_cons] at hnd
    rw [pyDictMerge_cons]
    rw [ih (by simpa [dkeys] using hnd.2) (dinsert base p.1 p.2)]
    rw [dkeys_dinsert]
    by_cases hp : p.1 ∈ dkeys base
    · rw [if_pos hp]
      simp only [dkeys, List.map_cons]
      rw [List.filter_cons_of_neg (by simp [dkeys] at hp ⊢; simp [hp])]
    · rw [if_neg hp]
      simp only [dkeys, List.map_cons]
      rw [List.filter_cons_of_pos (by simp [dkeys] at hp ⊢; simp [hp])]
      rw [List.append_assoc, List.singleton_append]
      congr 1
      congr 1
      apply List.filter_congr
      intro a ha
      have hne : a ≠ p.1 := fun hc =>
        (show p.1 ∉ List.map Prod.fst rest from hnd.1) (hc ▸ ha)
      simp [List.mem_append, hne]

theorem dlookup_eq_some_iff_mem (m : List (κ × υ)) (k : κ) (v : υ)
    (hnd : (dkeys m).Nodup) : dlookup k m = some v ↔ (k, v) ∈ m := by
  induction m with
  | nil => simp [dlookup]
  | cons p rest ih =>
    simp only [dkeys, List.map_cons, List.nodup_cons] at hnd
    rw [dlookup_cons, List.mem_cons]
    by_cases hp : p.1 = k
    · rw [if_pos hp]
      constructor
      · intro hv
        left
        cases p
        simp at hv hp
        rw [hp, hv.symm]
      · rintro (rfl | hc)
        · rfl
        · exfalso
          apply hnd.1
          rw [hp]
          exact List.mem_map_of_mem Prod.fst hc
    · rw [if_neg hp]
      rw [ih (by simpa [dkeys] using hnd.2)]
      constructor
      · intro hc; exact Or.inr hc
      · rintro (rfl | hc)
        · exact absurd rfl hp
        · exact hc

theorem dlookup_perm (l l2 : List (κ × υ)) (k : κ) (hperm : l.Perm l2)
    (hnd : (dkeys l).Nodup) : dlookup k l = dlookup k l2 := by
  have hnd2 : (dkeys l2).Nodup := by
    unfold dkeys at hnd ⊢
    exact (hperm.map Prod.fst).nodup_iff.mp hnd
  cases hv : dlookup k l with
  | none =>
    rw [eq_comm, dlookup_eq_none_iff]
    intro hc
    apply (dlookup_eq_none_iff l k).mp hv
    unfold dkeys at hc ⊢
    exact (hperm.map Prod.fst).mem_iff.mpr hc
  | some v =>
    rw [eq_comm, dlookup_eq_some_iff_mem l2 k v hnd2]
    exact hperm.mem_iff.mp ((dlookup_eq_some_iff_mem l k v hnd).mp hv)

end Peek

namespace Peek

/-! ### Lemmas about `staticFields` and `to_dict_fields` -/

theorem nodup_dkeys_foldl {α : Type}
    (f : List (String × PyVal) → α → List (String × PyVal))
    (hf : ∀ acc x, (dkeys acc).Nodup → (dkeys (f acc x)).Nodup) :
    ∀ (l : List α) (acc : List (String × PyVal)),
      (dkeys acc).Nodup → (dkeys (l.foldl f acc)).Nodup := by
  intro l
  induction l with
  | nil => intro acc h; exact h
  | cons x rest ih =>
    intro acc h
    rw [List.foldl_cons]
    exact ih (f acc x) (hf acc x h)

theorem nodup_dkeys_staticFields (tgt : Target) (ed : Bool) :
    (dkeys (staticFields tgt ed)).Nodup := by
  unfold staticFields
  apply nodup_dkeys_foldl
  · intro acc p h
    by_cases hk : keepField ed p
    · rw [if_pos hk]
      exact nodup_dkeys_dinsert _ _ _ h
    · rwa [if_neg hk]
  · simp [dkeys]

theorem nodup_dkeys_to_dict_fields (td : TargetData) (ed idr : Bool) :
    (dkeys (to_dict_fields td ed idr)).Nodup := by
  unfold to_dict_fields fields_additional_info fields_goals fields_dep_rules
    fields_sources fields_dependencies
  repeat' split
  all_goals repeat' apply nodup_dkeys_dinsert
  all_goals exact nodup_dkeys_staticFields td.target ed

end Peek

namespace Peek

/-- Looking a key up in the final `to_dict` result equals looking it up in
the `fields` dict, provided the key is not one of the two leading keys. -/
theorem dlookup_to_dict (td : TargetData) (ed idr : Bool) (k : String)
    (hk1 : k ≠ "address") (hk2 : k ≠ "target_type") :
    dlookup k (td.to_dict ed idr) = dlookup k (to_dict_fields td ed idr) := by
  unfold TargetData.to_dict
  have hsort : (List.insertionSort keyLE (to_dict_fields td ed idr)).Perm
      (to_dict_fields td ed idr) :=
    List.perm_insertionSort keyLE _
  have hnd : (dkeys (List.insertionSort keyLE (to_dict_fields td ed idr))).Nodup := by
    unfold dkeys
    exact (hsort.map Prod.fst).nodup_iff.mpr (nodup_dkeys_to_dict_fields td ed idr)
  rw [dlookup_pyDictMerge_of_items _ k hnd _
    (by simp [dkeys, hk1, hk2])]
  exact dlookup_perm _ _ k hsort hnd

/-- The rendered aliases of a target's static fields. -/
def staticAliases (tgt : Target) : List String :=
  tgt.field_values.map (fun p => renderedAlias p.1)

theorem dkeys_staticFields_subset (tgt : Target) (ed : Bool) :
    ∀ k, k ∈ dkeys (staticFields tgt ed) → k ∈ staticAliases tgt := by
  unfold staticFields staticAliases
  have haux :
      ∀ (l : List (FieldType × PyVal)) (acc : List (String × PyVal)) (k : String),
        k ∈ dkeys (l.foldl
          (fun acc p =>
            if keepField ed p then
              dinsert acc (renderedAlias p.1) (_normalize_value p.2)
            else acc) acc) →
        k ∈ dkeys acc ∨ k ∈ l.map (fun p => renderedAlias p.1) := by
    intro l
    induction l with
    | nil => intro acc k h; exact Or.inl h
    | cons p rest ih =>
      intro acc k h
      rw [List.foldl_cons] at h
      rcases ih _ k h with hc | hc
      · by_cases hkeep : keepField ed p
        · rw [if_pos hkeep] at hc
          rcases (mem_dkeys_dinsert _ _ _ _).mp hc with hc2 | hc2
          · exact Or.inl hc2
          · exact Or.inr (by simp [hc2])
        · rw [if_neg hkeep] at hc
          exact Or.inl hc
      · exact Or.inr (by simp; right; simpa using hc)
  intro k h
  rcases haux tgt.field_values [] k h with hc | hc
  · simp [dkeys] at hc
  · exact hc

/-- Complete characterization of the static-fields dict when the rendered
aliases are pairwise distinct (as they are for real target types): the
comprehension keeps exactly the items passing the filter, in order, with
rendered keys and normalized values. -/
theorem staticFields_eq_of_nodup (tgt : Target) (ed : Bool)
    (hnd : (staticAliases tgt).Nodup) :
    staticFields tgt ed =
      (tgt.field_values.filter (keepField ed)).map
        (fun p => (renderedAlias p.1, _normalize_value p.2)) := by
  unfold staticFields
  have haux :
      ∀ (l : List (FieldType × PyVal)) (acc : List (String × PyVal)),
        (l.map (fun p => renderedAlias p.1)).Nodup →
        (∀ p ∈ l, renderedAlias p.1 ∉ dkeys acc) →
        l.foldl
          (fun acc p =>
            if keepField ed p then
              dinsert acc (renderedAlias p.1) (_normalize_value p.2)
            else acc) acc =
          acc ++ (l.filter (keepField ed)).map
            (fun p => (renderedAlias p.1, _normalize_value p.2)) := by
    intro l
    induction l with
    | nil => intro acc _ _; simp
    | cons p rest ih =>
      intro acc hndl hdisj
      rw [List.foldl_cons]
      simp only [List.map_cons, List.nodup_cons] at hndl
      by_cases hkeep : keepField ed p
      · rw [if_pos hkeep]
        have hpin : renderedAlias p.1 ∉ dkeys acc := hdisj p (by simp)
        have hdin : dinsert acc (renderedAlias p.1) (_normalize_value p.2) =
            acc ++ [(renderedAlias p.1, _normalize_value p.2)] := by
          unfold dinsert
          rw [if_neg (fun hc => hpin ((dany_iff_mem _ _).mp hc))]
        rw [hdin]
        rw [ih (acc ++ [(renderedAlias p.1, _normalize_value p.2)]) hndl.2
          (by
            intro q hq
            unfold dkeys
            rw [List.map_append]
            simp only [List.mem_append]
            rintro (hc | hc)
            · exact hdisj q (List.mem_cons_of_mem p hq) hc
            · simp only [List.map_cons, List.map_nil, List.mem_singleton] at hc
              exact hndl.1
                (hc ▸ List.mem_map_of_mem (fun p => renderedAlias p.1) hq))]
        rw [List.filter_cons_of_pos hkeep, List.map_cons, List.append_assoc,
          List.singleton_append]
      · rw [if_neg hkeep]
        rw [ih acc hndl.2 (fun q hq => hdisj q (List.mem_cons_of_mem p hq))]
        rw [List.filter_cons_of_neg (by simpa using hkeep)]
  rw [haux tgt.field_values [] hnd (by intro p _; simp [dkeys])]
  simp

end Peek

namespace Peek

/-! ### Per-layer lookup lemmas for `to_dict_fields` -/

theorem dlookup_mem {κ υ : Type} [DecidableEq κ] (m : List (κ × υ)) (k : κ)
    (v : υ) (h : dlookup k m = some v) : (k, v) ∈ m := by
  induction m with
  | nil => simp [dlookup] at h
  | cons p rest ih =>
    rw [dlookup_cons] at h
    by_cases hp : p.1 = k
    · rw [if_pos hp] at h
      cases p
      simp at hp h
      rw [List.mem_cons]
      left
      rw [hp, h]
    · rw [if_neg hp] at h
      exact List.mem_cons_of_mem p (ih h)

theorem dlookup_fields_dependencies_ne (td : TargetData)
    (m : List (String × PyVal)) (k : String) (h : k ≠ "dependencies") :
    dlookup k (fields_dependencies td m) = dlookup k m :=
  dlookup_dinsert_ne m _ k _ h

theorem dlookup_fields_sources_ne (td : TargetData)
    (m : List (String × PyVal)) (k : String) (h1 : k ≠ "sources")
    (h2 : k ≠ "sources_fingerprint") :
    dlookup k (fields_sources td m) = dlookup k m := by
  unfold fields_sources
  cases td.expanded_sources with
  | none => rfl
  | some snap =>
    rw [dlookup_dinsert_ne _ _ _ _ h2, dlookup_dinsert_ne _ _ _ _ h1]

theorem dlookup_fields_dep_rules_ne (td : TargetData) (idr : Bool)
    (m : List (String × PyVal)) (k : String)
    (h1 : k ≠ "_dependencies_rules") (h2 : k ≠ "_dependents_rules")
    (h3 : k ≠ "_applicable_dep_rules") :
    dlookup k (fields_dep_rules td idr m) = dlookup k m := by
  unfold fields_dep_rules
  cases idr with
  | false => rfl
  | true =>
    rw [if_pos rfl, dlookup_dinsert_ne _ _ _ _ h3,
      dlookup_dinsert_ne _ _ _ _ h2, dlookup_dinsert_ne _ _ _ _ h1]

theorem dlookup_fields_goals_ne (td : TargetData)
    (m : List (String × PyVal)) (k : String) (h : k ≠ "goals") :
    dlookup k (fields_goals td m) = dlookup k m := by
  unfold fields_goals
  cases td.goals with
  | none => rfl
  | some gs => rw [dlookup_dinsert_ne _ _ _ _ h]

theorem dlookup_fields_additional_info_ne (td : TargetData)
    (m : List (String × PyVal)) (k : String) (h : k ≠ "additional_info") :
    dlookup k (fields_additional_info td m) = dlookup k m := by
  unfold fields_additional_info
  cases td.additional_info with
  | none => rfl
  | some ais => rw [dlookup_dinsert_ne _ _ _ _ h]

/-- Under `include_dep_rules`, the `_dependents_rules` key of the fields
dict always holds the stored (possibly `None`) value. -/
theorem dlookup_dependents_rules_fields (td : TargetData) (ed : Bool) :
    dlookup "_dependents_rules" (to_dict_fields td ed true) =
      some (optStrTup td.dependents_rules) := by
  unfold to_dict_fields
  rw [dlookup_fields_additional_info_ne _ _ _ (by decide),
    dlookup_fields_goals_ne _ _ _ (by decide)]
  unfold fields_dep_rules
  rw [if_pos rfl, dlookup_dinsert_ne _ _ _ _ (by decide),
    dlookup_dinsert_self]

/-- Under `include_dep_rules`, the `_dependencies_rules` key of the fields
dict always holds the stored (possibly `None`) value. -/
theorem dlookup_dependencies_rules_fields (td : TargetData) (ed : Bool) :
    dlookup "_dependencies_rules" (to_dict_fields td ed true) =
      some (optStrTup td.dependencies_rules) := by
  unfold to_dict_fields
  rw [dlookup_fields_additional_info_ne _ _ _ (by decide),
    dlookup_fields_goals_ne _ _ _ (by decide)]
  unfold fields_dep_rules
  rw [if_pos rfl, dlookup_dinsert_ne _ _ _ _ (by decide),
    dlookup_dinsert_ne _ _ _ _ (by decide), dlookup_dinsert_self]

/-- The `goals` key of the fields dict: present with the stored tuple when
`self.goals` is not `None`, otherwise only what the static fields provide. -/
theorem dlookup_goals_fields (td : TargetData) (ed idr : Bool) :
    dlookup "goals" (to_dict_fields td ed idr) =
      match td.goals with
      | some gs => some (.tup (gs.map .str))
      | none => dlookup "goals" (staticFields td.target ed) := by
  unfold to_dict_fields
  rw [dlookup_fields_additional_info_ne _ _ _ (by decide)]
  unfold fields_goals
  cases td.goals with
  | some gs => rw [dlookup_dinsert_self]
  | none =>
    rw [dlookup_fields_dep_rules_ne _ _ _ _ (by decide) (by decide) (by decide),
      dlookup_fields_sources_ne _ _ _ (by decide) (by decide),
      dlookup_fields_dependencies_ne _ _ _ (by decide)]

/-- The `additional_info` key of the fields dict: present with the sorted
label dict when `self.additional_info` is not `None`, otherwise only what
the static fields provide. -/
theorem dlookup_additional_info_fields (td : TargetData) (ed idr : Bool) :
    dlookup "additional_info" (to_dict_fields td ed idr) =
      match td.additional_info with
      | some ais => some (.dict (additionalInfoDict ais))
      | none => dlookup "additional_info" (staticFields td.target ed) := by
  unfold to_dict_fields
  unfold fields_additional_info
  cases td.additional_info with
  | some ais => rw [dlookup_dinsert_self]
  | none =>
    rw [dlookup_fields_goals_ne _ _ _ (by decide),
      dlookup_fields_dep_rules_ne _ _ _ _ (by decide) (by decide) (by decide),
      dlookup_fields_sources_ne _ _ _ (by decide) (by decide),
      dlookup_fields_dependencies_ne _ _ _ (by decide)]

/-- A key outside the static aliases is absent from the static fields. -/
theorem dlookup_staticFields_none (tgt : Target) (ed : Bool) (k : String)
    (h : k ∉ staticAliases tgt) :
    dlookup k (staticFields tgt ed) = none :=
  (dlookup_eq_none_iff _ k).mpr
    (fun hc => h (dkeys_staticFields_subset tgt ed k hc))

end Peek

namespace Peek

instance : IsTotal String strLe := ⟨strLe_total⟩

instance : IsTrans String strLe := ⟨fun _ _ _ => strLe_trans⟩

/-! ### Lemmas about the alias-to-goals map -/

theorem pyDictMerge_eq_append_of_nodup {κ2 υ2 : Type} [DecidableEq κ2]
    (items : List (κ2 × υ2)) :
    ∀ base : List (κ2 × υ2), (dkeys items).Nodup →
      (∀ p ∈ items, p.1 ∉ dkeys base) →
      pyDictMerge base items = base ++ items := by
  induction items with
  | nil => intro base _ _; simp [pyDictMerge_nil]
  | cons p rest ih =>
    intro base hnd hdisj
    simp only [dkeys, List.map_cons, List.nodup_cons] at hnd
    rw [pyDictMerge_cons]
    have hnotin : p.1 ∉ dkeys base := hdisj p (by simp)
    have hdin : dinsert base p.1 p.2 = base ++ [p] := by
      unfold dinsert
      rw [if_neg (fun hc => hnotin ((dany_iff_mem _ _).mp hc))]
    rw [hdin]
    rw [ih (base ++ [p]) (by simpa [dkeys] using hnd.2)
      (by
        intro q hq
        unfold dkeys
        rw [List.map_append]
        simp only [List.mem_append]
        rintro (hc | hc)
        · exact hdisj q (List.mem_cons_of_mem p hq) hc
        · simp only [List.map_cons, List.map_nil, List.mem_singleton] at hc
          exact (show p.1 ∉ List.map Prod.fst rest from hnd.1)
            (hc ▸ List.mem_map_of_mem Prod.fst hq))]
    rw [List.append_assoc, List.singleton_append]

theorem msetAdd_values (m : List (String × List String)) (a goal : String)
    (h : ∀ p ∈ m, p.2 ≠ [] ∧ p.2.Nodup) :
    ∀ p ∈ msetAdd m a goal, p.2 ≠ [] ∧ p.2.Nodup := by
  intro p hp
  unfold msetAdd at hp
  by_cases hmem : (m.any fun q => decide (q.1 = a)) = true
  · rw [if_pos hmem] at hp
    rcases List.mem_map.mp hp with ⟨q, hq, rfl⟩
    by_cases hqa : q.1 = a
    · simp only [if_pos hqa]
      by_cases hg : goal ∈ q.2
      · simpa [hg] using h q hq
      · have hq2 := h q hq
        simp only [if_neg hg]
        refine ⟨by simp, ?_⟩
        rw [List.nodup_append]
        exact ⟨hq2.2, List.nodup_singleton goal, by simpa using hg⟩
    · simp only [if_neg hqa]
      exact h q hq
  · rw [if_neg hmem] at hp
    rcases List.mem_append.mp hp with hq | hq
    · exact h p hq
    · simp only [List.mem_singleton] at hq
      rw [hq]
      exact ⟨by simp, by simp⟩

theorem foldl_msetAdd_values (aliases : List String) (goal : String) :
    ∀ m : List (String × List String),
      (∀ p ∈ m, p.2 ≠ [] ∧ p.2.Nodup) →
      ∀ p ∈ aliases.foldl (fun m a => msetAdd m a goal) m,
        p.2 ≠ [] ∧ p.2.Nodup := by
  induction aliases with
  | nil => intro m h; exact h
  | cons a rest ih =>
    intro m h
    rw [List.foldl_cons]
    exact ih (msetAdd m a goal) (msetAdd_values m a goal h)

theorem goals_map_values (pairs : List (String × List String)) :
    ∀ m : List (String × List String),
      (∀ p ∈ m, p.2 ≠ [] ∧ p.2.Nodup) →
      ∀ p ∈ pairs.foldl
        (fun m pr => pr.2.foldl (fun m a => msetAdd m a pr.1) m) m,
        p.2 ≠ [] ∧ p.2.Nodup := by
  induction pairs with
  | nil => intro m h; exact h
  | cons pr rest ih =>
    intro m h
    rw [List.foldl_cons]
    exact ih _ (foldl_msetAdd_values pr.2 pr.1 m h)

/-- Every entry of the alias-to-goals map is a non-empty, strictly sorted
goal list. -/
theorem create_goals_map_values (x : List (List String)) :
    ∀ p ∈ _create_target_alias_to_goals_map x,
      p.2 ≠ [] ∧ p.2.Pairwise strLt := by
  intro p hp
  unfold _create_target_alias_to_goals_map at hp
  rcases List.mem_map.mp hp with ⟨q, hq, rfl⟩
  have hv := goals_map_values _ [] (by simp) q hq
  dsimp only
  constructor
  · intro hc
    apply hv.1
    have hlen := List.length_insertionSort strLe q.2
    rw [hc] at hlen
    exact List.eq_nil_of_length_eq_zero hlen.symm
  · have hs : (List.insertionSort strLe q.2).Pairwise strLe :=
      List.sorted_insertionSort strLe q.2
    have hnd : (List.insertionSort strLe q.2).Nodup :=
      (List.perm_insertionSort strLe q.2).nodup_iff.mpr hv.2
    exact (hs.and hnd).imp (fun h => h)

end Peek

namespace Peek

/-! ### Support definitions for the claims -/

/-- Is the value a mutable container (a Python `list`, `set` or plain
`dict`)? -/
def isMutableContainer : PyVal → Bool
  | .list _ => true
  | .pySet _ => true
  | .dict _ => true
  | _ => false

/-- Is the value a natively-JSON-serializable scalar other than a string
or `None` (an `int` or `bool`)? -/
def isNativeScalarNum : PyVal → Bool
  | .int _ => true
  | .bool _ => true
  | _ => false

theorem mem_get_target_data (eng : EngineOracle) (plugins : List Plugin)
    (targets : List Target) (subsys : PeekSubsystem) (td : TargetData)
    (h : td ∈ get_target_data eng plugins targets subsys) :
    td.target ∈ targets ∧ td.goals = none ∧
      td.additional_info =
        (if subsys.include_additional_info then
          some (pluginInfos plugins td.target) else none) := by
  unfold get_target_data at h
  rcases List.mem_map.mp h with ⟨tgt, htgt, rfl⟩
  exact ⟨(List.mem_insertionSort addrLE).mp htgt, rfl, rfl⟩

end Peek

namespace Peek

/-! ### The claims -/

/-- C9: for every value not handled by any specific case of
`_PeekJsonEncoder.default` (an arbitrary object `pyobj s`), the
superclass `default` does raise `TypeError`, and the encoder nevertheless
serializes the value as its `str()` text inside a JSON string — rendering
does not propagate the `TypeError`. -/
theorem C9_encoder_fallback_total (s : String) :
    (superDefault (.pyobj s)).isOk = false ∧
    dumps (.pyobj s) = .ok (jquote s) := by
  constructor
  · rfl
  · rw [show dumps (.pyobj s) = dumps (pydefault (.pyobj s)) from by
      simp [dumps]]
    simp [pydefault, superDefault, pyStr, pyRepr, dumps]

/-- C10: the `AdditionalTargetData` constructor normalizes its `data`
argument — a mapping becomes `FrozenDict.deep_freeze(data)` (a frozen
mapping), a list or set becomes a tuple — so the stored `data` field is
never a mutable list, set, or plain dict. -/
theorem C10_init_normalizes (label : String) (data : PyVal)
    (kvs : List (PyVal × PyVal)) (xs : List PyVal) :
    isMutableContainer (AdditionalTargetData.init label data).data = false ∧
    (AdditionalTargetData.init label (.dict kvs)).data =
      deepFreeze (.dict kvs) ∧
    deepFreeze (.dict kvs) = .frozendict (deepFreezeKV kvs) ∧
    (AdditionalTargetData.init label (.list xs)).data = .tup xs ∧
    (AdditionalTargetData.init label (.pySet xs)).data = .tup xs ∧
    (AdditionalTargetData.init label data).label = label := by
  refine ⟨?_, rfl, by rw [deepFreeze], rfl, rfl, by cases data <;> rfl⟩
  cases data <;> simp [AdditionalTargetData.init, deepFreeze,
    isMutableContainer]

/-- C3 counterexample: wrapping the natively serializable value `5` in a
`Field` changes the rendered JSON from the number `5` to the string
`"5"`, because the unwrapped inner value falls through to the
`TypeError`-catching branch that returns `str(o)`. -/
theorem C3_counterexample :
    dumps (.field (.int 5)) = .ok "\"5\"" ∧
    dumps (.int 5) = .ok "5" ∧
    dumps (.field (.int 5)) ≠ dumps (.int 5) := by
  have h1 : dumps (.field (.int 5)) = .ok "\"5\"" := by
    simp [dumps, pydefault, superDefault, pyStr, pyRepr, jquote, escChar]
    rfl
  have h2 : dumps (.int 5) = .ok "5" := by
    simp [dumps]
    rfl
  refine ⟨h1, h2, ?_⟩
  rw [h1, h2]
  intro h
  have := Except.ok.inj h
  exact absurd this (by decide)

/-- C3 amended: rendering `Field(v)` and rendering `v` produce the same
JSON text for every value except the natively serializable non-string
scalars (`int` and `bool`), which render as their quoted `str()` text when
wrapped. -/
theorem C3_amended_field_unwrap (v : PyVal)
    (h : isNativeScalarNum v = false) :
    dumps (.field v) = dumps v := by
  cases v with
  | int n => simp [isNativeScalarNum] at h
  | bool b => simp [isNativeScalarNum] at h
  | str s => simp [dumps, pydefault]
  | pyNone => simp [dumps, pydefault]
  | list xs => simp [dumps, pydefault]
  | tup xs => simp [dumps, pydefault]
  | pySet xs => simp [dumps, pydefault]
  | dict kvs => simp [dumps, pydefault]
  | frozendict kvs => simp [dumps, pydefault]
  | field w => simp [dumps, pydefault]
  | dataclass kvs => simp [dumps, pydefault]
  | dictable kvs => simp [dumps, pydefault]
  | pyobj s => simp [dumps, pydefault]

/-- Witness for the amended C3 at a concrete input. -/
theorem C3_amended_field_unwrap_witness :
    isNativeScalarNum (.str "x") = false ∧
    dumps (.field (.str "x")) = dumps (.str "x") :=
  ⟨rfl, C3_amended_field_unwrap (.str "x") rfl⟩

/-- C1 (code bug), evaluated at a failing input: with a non-empty
alias-to-goals map, the rebuilt `TargetData` copies the first six fields
and attaches `goals`, but `additional_info` — not passed among the seven
positional arguments — is silently reset to `None`, losing the plugin
data of the original record. -/
theorem C1_attach_goals_resets_additional_info :
    attach_goals
      [{ target := ⟨"//a:a", "python_library", [], false⟩,
         expanded_sources := some ⟨["a.py"], "fp"⟩,
         expanded_dependencies := ["//d:1"],
         dependencies_rules := some ["r1"],
         dependents_rules := some ["r2"],
         applicable_dep_rules := some [.str "ap"],
         goals := none,
         additional_info := some [⟨"plug", .int 7⟩] }]
      [("python_library", ["run"])] =
      [{ target := ⟨"//a:a", "python_library", [], false⟩,
         expanded_sources := some ⟨["a.py"], "fp"⟩,
         expanded_dependencies := ["//d:1"],
         dependencies_rules := some ["r1"],
         dependents_rules := some ["r2"],
         applicable_dep_rules := some [.str "ap"],
         goals := some ["run"],
         additional_info := none }] := by
  decide

end Peek

namespace Peek

/-- C2 counterexample: a target whose owning group declares no ruleset in
either direction, serialized through the full `peek` pipeline with
`include_dep_rules=true`, yields an object in which the
`_dependents_rules` and `_dependencies_rules` keys are PRESENT with JSON
`null` values (the claim asserts they are absent). -/
theorem C2_counterexample :
    (peek_objects
        { depsOf := fun _ => [], hydrate := fun _ => ⟨[], ""⟩,
          dependenciesRulesOf := fun _ => none,
          dependentsRulesOf := fun _ => none,
          applicableRulesOf := fun _ => [] }
        [] [⟨"//a:a", "t", [], false⟩] ⟨false, true, false⟩
        [[], [], [], [], []]).map
        (fun obj =>
          (decide ("_dependents_rules" ∈ dkeys obj),
           dlookup "_dependents_rules" obj,
           dlookup "_dependencies_rules" obj)) =
      [(true, some .pyNone, some .pyNone)] := by
  decide

/-- C2 amended: with `includeRules=true` the `_dependents_rules` and
`_dependencies_rules` keys are always present; when the stored ruleset
description is `None` (no ruleset declared), their value is JSON `null`
rather than the key being absent. -/
theorem C2_amended_rules_keys_null (td : TargetData) (ed : Bool)
    (h1 : td.dependents_rules = none) (h2 : td.dependencies_rules = none) :
    dlookup "_dependents_rules" (td.to_dict ed true) = some .pyNone ∧
    dlookup "_dependencies_rules" (td.to_dict ed true) = some .pyNone ∧
    "_dependents_rules" ∈ dkeys (td.to_dict ed true) ∧
    "_dependencies_rules" ∈ dkeys (td.to_dict ed true) := by
  have e1 : dlookup "_dependents_rules" (td.to_dict ed true) =
      some .pyNone := by
    rw [dlookup_to_dict td ed true _ (by decide) (by decide),
      dlookup_dependents_rules_fields td ed, h1]
    rfl
  have e2 : dlookup "_dependencies_rules" (td.to_dict ed true) =
      some .pyNone := by
    rw [dlookup_to_dict td ed true _ (by decide) (by decide),
      dlookup_dependencies_rules_fields td ed, h2]
    rfl
  refine ⟨e1, e2, ?_, ?_⟩
  · have := dlookup_mem _ _ _ e1
    exact List.mem_map_of_mem Prod.fst this
  · have := dlookup_mem _ _ _ e2
    exact List.mem_map_of_mem Prod.fst this

/-- Witness for the amended C2 at a concrete record. -/
theorem C2_amended_rules_keys_null_witness :
    dlookup "_dependents_rules"
        (TargetData.to_dict ⟨⟨"//a:a", "t", [], false⟩, none, [],
          none, none, none, none, none⟩ false true) = some .pyNone ∧
    dlookup "_dependencies_rules"
        (TargetData.to_dict ⟨⟨"//a:a", "t", [], false⟩, none, [],
          none, none, none, none, none⟩ false true) = some .pyNone ∧
    "_dependents_rules" ∈ dkeys
        (TargetData.to_dict ⟨⟨"//a:a", "t", [], false⟩, none, [],
          none, none, none, none, none⟩ false true) ∧
    "_dependencies_rules" ∈ dkeys
        (TargetData.to_dict ⟨⟨"//a:a", "t", [], false⟩, none, [],
          none, none, none, none, none⟩ false true) :=
  C2_amended_rules_keys_null _ false rfl rfl

end Peek

namespace Peek

theorem keepField_eq_false_iff (ed : Bool) (k : FieldType) (v : PyVal) :
    keepField ed (k, v) = false ↔ (ed = true ∧ k.default = some v) := by
  unfold keepField
  cases hd : k.default with
  | none => simp
  | some d =>
    simp only [Bool.not_eq_false', Bool.and_eq_true, Option.some.injEq]
    constructor
    · intro h
      exact ⟨h.1, (pvEq_iff d v).mp h.2⟩
    · rintro ⟨he, hv⟩
      exact ⟨he, (pvEq_iff d v).mpr hv⟩

/-- C6: a static field is dropped from the fields dict iff
`exclude_defaults` is set, the field type declares a default, and the
current value equals that default; consequently nothing is dropped with
`exclude_defaults=false`, and a non-default-valued field is never dropped.
(The rendered aliases are assumed pairwise distinct, as they are for real
target types.) -/
theorem C6_exclude_defaults_iff (tgt : Target) (ed : Bool) (k : FieldType)
    (v : PyVal) (hmem : (k, v) ∈ tgt.field_values)
    (hnd : (staticAliases tgt).Nodup) :
    (renderedAlias k ∉ dkeys (staticFields tgt ed)) ↔
      (ed = true ∧ k.default = some v) := by
  rw [staticFields_eq_of_nodup tgt ed hnd]
  rw [← keepField_eq_false_iff ed k v]
  unfold dkeys
  rw [List.map_map]
  unfold staticAliases at hnd
  constructor
  · intro h
    cases hkf : keepField ed (k, v) with
    | false => rfl
    | true =>
      exfalso
      apply h
      have hfil : (k, v) ∈ tgt.field_values.filter (keepField ed) :=
        List.mem_filter.mpr ⟨hmem, hkf⟩
      exact List.mem_map_of_mem _ hfil
  · intro hkf hc
    rcases List.mem_map.mp hc with ⟨p, hp, hpe⟩
    have hpl := (List.mem_filter.mp hp).1
    have hpkeep := (List.mem_filter.mp hp).2
    have hpkv : p = (k, v) :=
      List.inj_on_of_nodup_map hnd hpl hmem hpe
    rw [hpkv, hkf] at hpkeep
    cases hpkeep

/-- Witness for C6 at a concrete target: with `exclude_defaults=true`, a
field whose value equals its declared default is dropped. -/
theorem C6_exclude_defaults_iff_witness :
    (renderedAlias ⟨"x", false, some (.int 1)⟩ ∉
        dkeys (staticFields
          ⟨"//a:a", "t", [(⟨"x", false, some (.int 1)⟩, .int 1)], false⟩
          true)) ↔
      (true = true ∧
        (⟨"x", false, some (.int 1)⟩ : FieldType).default = some (.int 1)) :=
  C6_exclude_defaults_iff _ true _ _ (by decide) (by decide)

end Peek

namespace Peek

/-- C7: in every serialized target object the first key is `address`, the
second is `target_type`, and all remaining keys are in strictly ascending
lexicographic order. -/
theorem C7_key_order (td : TargetData) (ed idr : Bool) :
    (dkeys (td.to_dict ed idr)).head? = some "address" ∧
    (dkeys (td.to_dict ed idr))[1]? = some "target_type" ∧
    ((dkeys (td.to_dict ed idr)).drop 2).Pairwise strLt := by
  have hperm := List.perm_insertionSort keyLE (to_dict_fields td ed idr)
  have hndf := nodup_dkeys_to_dict_fields td ed idr
  have hnds :
      (dkeys (List.insertionSort keyLE (to_dict_fields td ed idr))).Nodup := by
    unfold dkeys
    exact (hperm.map Prod.fst).nodup_iff.mpr hndf
  have hkeys := dkeys_pyDictMerge
    (List.insertionSort keyLE (to_dict_fields td ed idr)) hnds
    [("address", PyVal.str td.target.address),
     ("target_type", PyVal.str td.target.alias)]
  have hsorted :
      (dkeys (List.insertionSort keyLE (to_dict_fields td ed idr))).Pairwise
        strLe := by
    unfold dkeys
    exact (List.sorted_insertionSort keyLE (to_dict_fields td ed idr)).map
      Prod.fst (fun a b h => h)
  have hstrict :
      (dkeys (List.insertionSort keyLE (to_dict_fields td ed idr))).Pairwise
        strLt :=
    (hsorted.and hnds).imp (fun h => h)
  refine ⟨?_, ?_, ?_⟩
  · show (dkeys (pyDictMerge _ _)).head? = some "address"
    rw [hkeys]
    simp [dkeys]
  · show (dkeys (pyDictMerge _ _))[1]? = some "target_type"
    rw [hkeys]
    simp [dkeys]
  · show ((dkeys (pyDictMerge _ _)).drop 2).Pairwise strLt
    rw [hkeys]
    rw [show dkeys [("address", PyVal.str td.target.address),
        ("target_type", PyVal.str td.target.alias)] =
        ["address", "target_type"] from rfl]
    rw [List.cons_append, List.cons_append, List.nil_append]
    rw [List.drop_succ_cons, List.drop_succ_cons, List.drop_zero]
    exact hstrict.sublist (List.filter_sublist _)

end Peek

namespace Peek

/-- C8: the output order of `get_target_data` is the ascending Address
order of the input targets, whatever order they were supplied in; and
re-sorting the input leaves the output unchanged. -/
theorem C8_output_order (eng : EngineOracle) (plugins : List Plugin)
    (targets : List Target) (subsys : PeekSubsystem) :
    (get_target_data eng plugins targets subsys).map
        (fun td => td.target.address) =
      List.insertionSort strLe (targets.map (fun t => t.address)) ∧
    get_target_data eng plugins (List.insertionSort addrLE targets) subsys =
      get_target_data eng plugins targets subsys := by
  constructor
  · unfold get_target_data
    rw [List.map_map]
    show (List.insertionSort addrLE targets).map (fun tgt => tgt.address) = _
    exact @List.map_insertionSort Target String addrLE strLe _ _
      (fun t => t.address) targets (fun a _ b _ => Iff.rfl)
  · unfold get_target_data
    rw [List.Sorted.insertionSort_eq
      (List.sorted_insertionSort addrLE targets)]

end Peek

namespace Peek

theorem foldl_dinsert_eq_pyDictMerge (l : List AdditionalTargetData)
    (acc : List (PyVal × PyVal)) :
    l.foldl (fun acc atd => dinsert acc (.str atd.label) atd.data) acc =
      pyDictMerge acc (l.map (fun atd => ((PyVal.str atd.label), atd.data))) := by
  unfold pyDictMerge
  rw [List.foldl_map]

theorem pyval_str_injective : Function.Injective PyVal.str := by
  intro a b h
  injection h

theorem additionalInfoDict_eq_of_nodup (ais : List AdditionalTargetData)
    (hnd : (ais.map (fun a => a.label)).Nodup) :
    additionalInfoDict ais =
      (List.insertionSort labelLE ais).map
        (fun atd => (.str atd.label, atd.data)) ∧
    ((List.insertionSort labelLE ais).map (fun atd => atd.label)).Pairwise
      strLt := by
  have hpermlab :
      ((List.insertionSort labelLE ais).map (fun a => a.label)).Perm
        (ais.map (fun a => a.label)) :=
    (List.perm_insertionSort labelLE ais).map _
  have hndlab :
      ((List.insertionSort labelLE ais).map (fun a => a.label)).Nodup :=
    hpermlab.nodup_iff.mpr hnd
  constructor
  · unfold additionalInfoDict
    rw [foldl_dinsert_eq_pyDictMerge]
    rw [pyDictMerge_eq_append_of_nodup _ []
      (by
        unfold dkeys
        rw [List.map_map]
        rw [show ((Prod.fst ∘ fun atd : AdditionalTargetData =>
            ((PyVal.str atd.label), atd.data)) =
            (PyVal.str ∘ fun a : AdditionalTargetData => a.label)) from rfl]
        rw [← List.map_map]
        exact hndlab.map pyval_str_injective)
      (by
        intro p _ hc
        simp [dkeys] at hc)]
    rw [List.nil_append]
  · have hs : (List.insertionSort labelLE ais).Pairwise labelLE :=
      List.sorted_insertionSort labelLE ais
    have hmapped :
        ((List.insertionSort labelLE ais).map
          (fun atd => atd.label)).Pairwise strLe :=
      hs.map _ (fun a b h => h)
    exact (hmapped.and hndlab).imp (fun h => h)

theorem dlookup_goals_to_dict (td : TargetData) (ed idr : Bool)
    (ha : "goals" ∉ staticAliases td.target) :
    dlookup "goals" (td.to_dict ed idr) =
      match td.goals with
      | some gs => some (.tup (gs.map .str))
      | none => none := by
  rw [dlookup_to_dict td ed idr _ (by decide) (by decide),
    dlookup_goals_fields]
  cases td.goals with
  | some gs => rfl
  | none => exact dlookup_staticFields_none _ _ _ ha

end Peek

namespace Peek

/-- C5: the `additional_info` key of a serialized record from
`get_target_data` has three distinct, distinguishable outputs — absent
when not requested; present with an empty JSON object when requested and
no plugin applies; present with the label-sorted plugin mapping when
requested and plugins apply. (The target is assumed not to declare a
static field rendered as `additional_info`, as in real target types.) -/
theorem C5_additional_info_three_way (eng : EngineOracle)
    (plugins : List Plugin) (targets : List Target) (subsys : PeekSubsystem)
    (td : TargetData)
    (hmem : td ∈ get_target_data eng plugins targets subsys)
    (hna : "additional_info" ∉ staticAliases td.target) :
    (subsys.include_additional_info = false →
      "additional_info" ∉
        dkeys (td.to_dict subsys.exclude_defaults subsys.include_dep_rules)) ∧
    (subsys.include_additional_info = true →
      dlookup "additional_info"
          (td.to_dict subsys.exclude_defaults subsys.include_dep_rules) =
        some (.dict (additionalInfoDict (pluginInfos plugins td.target)))) ∧
    (subsys.include_additional_info = true →
      pluginInfos plugins td.target = [] →
      dlookup "additional_info"
          (td.to_dict subsys.exclude_defaults subsys.include_dep_rules) =
        some (.dict [])) ∧
    (((pluginInfos plugins td.target).map (fun a => a.label)).Nodup →
      additionalInfoDict (pluginInfos plugins td.target) =
        (List.insertionSort labelLE (pluginInfos plugins td.target)).map
          (fun atd => (.str atd.label, atd.data)) ∧
      ((List.insertionSort labelLE (pluginInfos plugins td.target)).map
          (fun atd => atd.label)).Pairwise strLt) := by
  have hai := (mem_get_target_data eng plugins targets subsys td hmem).2.2
  have hlook :
      dlookup "additional_info"
          (td.to_dict subsys.exclude_defaults subsys.include_dep_rules) =
        match td.additional_info with
        | some ais => some (.dict (additionalInfoDict ais))
        | none => none := by
    rw [dlookup_to_dict td _ _ _ (by decide) (by decide),
      dlookup_additional_info_fields]
    cases td.additional_info with
    | some ais => rfl
    | none => exact dlookup_staticFields_none _ _ _ hna
  refine ⟨?_, ?_, ?_, ?_⟩
  · intro hinc
    rw [hinc] at hai
    simp only [Bool.false_eq_true, if_false] at hai
    apply (dlookup_eq_none_iff _ _).mp
    rw [hlook, hai]
  · intro hinc
    rw [hinc] at hai
    rw [if_pos rfl] at hai
    rw [hlook, hai]
  · intro hinc hempty
    rw [hinc] at hai
    rw [if_pos rfl] at hai
    rw [hlook, hai, hempty]
    rfl
  · exact additionalInfoDict_eq_of_nodup _

end Peek

namespace Peek

/-- Witness for C5 at a concrete pipeline: one applicable plugin, info
requested. -/
theorem C5_additional_info_three_way_witness :
    dlookup "additional_info"
        (TargetData.to_dict
          { target := ⟨"//a:a", "t", [], false⟩, expanded_sources := none,
            expanded_dependencies := [],
            additional_info := some [⟨"p", .int 1⟩] } false false) =
      some (.dict (additionalInfoDict
        (pluginInfos [⟨fun _ => true, fun _ => ⟨"p", .int 1⟩⟩]
          ⟨"//a:a", "t", [], false⟩))) :=
  (C5_additional_info_three_way
    { depsOf := fun _ => [], hydrate := fun _ => ⟨[], ""⟩,
      dependenciesRulesOf := fun _ => none, dependentsRulesOf := fun _ => none,
      applicableRulesOf := fun _ => [] }
    [⟨fun _ => true, fun _ => ⟨"p", .int 1⟩⟩]
    [⟨"//a:a", "t", [], false⟩] ⟨false, false, true⟩
    { target := ⟨"//a:a", "t", [], false⟩, expanded_sources := none,
      expanded_dependencies := [],
      additional_info := some [⟨"p", .int 1⟩] }
    (by decide) (by decide)).2.1 rfl

end Peek

namespace Peek

/-- C4: if the operation-category table yields no applicable goal for any
target (empty alias-to-goals map), no serialized object contains a `goals`
key; and whenever a `goals` key is present, its value is a non-empty,
strictly lexicographically sorted array. (Targets are assumed not to
declare a static field rendered as `goals`, as in real target types.) -/
theorem C4_goals_key (eng : EngineOracle) (plugins : List Plugin)
    (targets : List Target) (subsys : PeekSubsystem)
    (aliases_per_target_root : List (List String))
    (hga : ∀ tgt ∈ targets, "goals" ∉ staticAliases tgt) :
    (_create_target_alias_to_goals_map aliases_per_target_root = [] →
      ∀ obj ∈ peek_objects eng plugins targets subsys aliases_per_target_root,
        "goals" ∉ dkeys obj) ∧
    (∀ obj ∈ peek_objects eng plugins targets subsys aliases_per_target_root,
      ∀ v, dlookup "goals" obj = some v →
        ∃ gs : List String, v = .tup (gs.map .str) ∧ gs ≠ [] ∧
          gs.Pairwise strLt) := by
  constructor
  · intro hgm obj hobj
    unfold peek_objects at hobj
    dsimp only at hobj
    rw [hgm] at hobj
    unfold attach_goals at hobj
    rw [if_pos (show ([] : List (String × List String)).isEmpty = true
      from rfl)] at hobj
    rcases List.mem_map.mp hobj with ⟨td, htd, rfl⟩
    have hprops := mem_get_target_data eng plugins targets subsys td htd
    apply (dlookup_eq_none_iff _ _).mp
    rw [dlookup_goals_to_dict td _ _ (hga td.target hprops.1), hprops.2.1]
  · intro obj hobj v hv
    unfold peek_objects at hobj
    dsimp only at hobj
    unfold attach_goals at hobj
    by_cases hgm :
        (_create_target_alias_to_goals_map aliases_per_target_root).isEmpty =
          true
    · rw [if_pos hgm] at hobj
      rcases List.mem_map.mp hobj with ⟨td, htd, rfl⟩
      have hprops := mem_get_target_data eng plugins targets subsys td htd
      rw [dlookup_goals_to_dict td _ _ (hga td.target hprops.1),
        hprops.2.1] at hv
      cases hv
    · rw [if_neg hgm] at hobj
      rw [List.map_map] at hobj
      rcases List.mem_map.mp hobj with ⟨td, htd, rfl⟩
      have hprops := mem_get_target_data eng plugins targets subsys td htd
      rw [Function.comp_apply] at hv
      set td2 : TargetData :=
        { target := td.target, expanded_sources := td.expanded_sources,
          expanded_dependencies := td.expanded_dependencies,
          dependencies_rules := td.dependencies_rules,
          dependents_rules := td.dependents_rules,
          applicable_dep_rules := td.applicable_dep_rules,
          goals := dlookup td.target.alias
            (_create_target_alias_to_goals_map aliases_per_target_root),
          additional_info := none } with htd2
      rw [dlookup_goals_to_dict td2 subsys.exclude_defaults
        subsys.include_dep_rules (hga td.target hprops.1)] at hv
      rw [show td2.goals = dlookup td.target.alias
        (_create_target_alias_to_goals_map aliases_per_target_root)
        from rfl] at hv
      cases hgl : dlookup td.target.alias
          (_create_target_alias_to_goals_map aliases_per_target_root) with
      | none =>
        rw [hgl] at hv
        cases hv
      | some gs =>
        rw [hgl] at hv
        have hmemgm := dlookup_mem _ _ _ hgl
        have hvals := create_goals_map_values aliases_per_target_root
          (td.target.alias, gs) hmemgm
        refine ⟨gs, ?_, hvals.1, hvals.2⟩
        exact (Option.some.inj hv).symm

end Peek

namespace Peek

/-- Witness for C4 at a concrete pipeline: a `pex_binary` target matched
by the package and run field sets gets a non-empty, sorted `goals` array. -/
theorem C4_goals_key_witness :
    ∃ gs : List String,
      (PyVal.tup [.str "package", .str "run"]) = .tup (gs.map .str) ∧
      gs ≠ [] ∧ gs.Pairwise strLt :=
  (C4_goals_key
    { depsOf := fun _ => [], hydrate := fun _ => ⟨[], ""⟩,
      dependenciesRulesOf := fun _ => none, dependentsRulesOf := fun _ => none,
      applicableRulesOf := fun _ => [] }
    [] [⟨"//a:a", "pex_binary", [], false⟩] ⟨false, false, false⟩
    [[], ["pex_binary"], [], ["pex_binary"], []] (by decide)).2
    [("address", .str "//a:a"), ("target_type", .str "pex_binary"),
     ("dependencies", .tup []), ("goals", .tup [.str "package", .str "run"])]
    (by decide) (.tup [.str "package", .str "run"]) (by decide)

end Peek
